import Mathlib

/-!
# Verification of the TrampoAI MCP connection manager and tool-calling loop

This file gives a shallow embedding, in Lean 4, of the core of the TrampoAI
backend (an MCP connection manager plus an OpenRouter tool-calling
orchestrator), and proves or refutes the frozen specification claims about it.

Conventions of the embedding:
* JavaScript strings are modelled by `String` (or by `List Char` where
  character-level reasoning about the `"__"` namespace separator is needed).
* JavaScript `Map` objects are modelled by association lists with
  insertion-order `set`/`delete`/`get` helpers mirroring `Map` semantics.
* JSON documents (`Record<string, unknown>` values) are modelled by the
  inductive type `Json` below; a JS object is an ordered list of fields.
* `undefined` versus `null` versus a present value is modelled with nested
  `Option`s where the source distinguishes them (`content?: string | null`
  becomes `Option (Option String)`).
* Asynchronous collaborator calls (the network fetch, `JSON.parse`,
  `JSON.stringify`, the MCP client's `callTool`) are taken as explicit
  function parameters: the theorems hold for every behaviour of those
  collaborators.
* Thrown JavaScript `Error`s are modelled by `Except String` carrying the
  error message.
-/

namespace TrampoAI

/-- A JSON value, as produced by `JSON.parse` and carried in tool schemas.
An object is an insertion-ordered list of fields.  JS numbers are carried
opaquely (the modelled code never computes with them), so `Int` suffices. -/
inductive Json where
  | null
  | bool (b : Bool)
  | num (n : Int)
  | str (s : String)
  | arr (elems : List Json)
  | obj (fields : List (String × Json))
deriving Repr

mutual

def Json.decEq : (a b : Json) → Decidable (a = b)
  | .null, .null => isTrue rfl
  | .bool a, .bool b =>
    if h : a = b then isTrue (by rw [h]) else isFalse (by simp [h])
  | .num a, .num b =>
    if h : a = b then isTrue (by rw [h]) else isFalse (by simp [h])
  | .str a, .str b =>
    if h : a = b then isTrue (by rw [h]) else isFalse (by simp [h])
  | .arr a, .arr b =>
    match Json.decEqList a b with
    | isTrue h => isTrue (by rw [h])
    | isFalse h => isFalse (by simp [h])
  | .obj a, .obj b =>
    match Json.decEqFields a b with
    | isTrue h => isTrue (by rw [h])
    | isFalse h => isFalse (by simp [h])
  | .null, .bool _ | .null, .num _ | .null, .str _ | .null, .arr _
  | .null, .obj _ | .bool _, .null | .bool _, .num _ | .bool _, .str _
  | .bool _, .arr _ | .bool _, .obj _ | .num _, .null | .num _, .bool _
  | .num _, .str _ | .num _, .arr _ | .num _, .obj _ | .str _, .null
  | .str _, .bool _ | .str _, .num _ | .str _, .arr _ | .str _, .obj _
  | .arr _, .null | .arr _, .bool _ | .arr _, .num _ | .arr _, .str _
  | .arr _, .obj _ | .obj _, .null | .obj _, .bool _ | .obj _, .num _
  | .obj _, .str _ | .obj _, .arr _ => isFalse (by intro h; exact Json.noConfusion h)

def Json.decEqList : (a b : List Json) → Decidable (a = b)
  | [], [] => isTrue rfl
  | [], _ :: _ => isFalse (by simp)
  | _ :: _, [] => isFalse (by simp)
  | x :: xs, y :: ys =>
    match Json.decEq x y, Json.decEqList xs ys with
    | isTrue h1, isTrue h2 => isTrue (by rw [h1, h2])
    | isFalse h1, _ => isFalse (by simp [h1])
    | _, isFalse h2 => isFalse (by simp [h2])

def Json.decEqFields : (a b : List (String × Json)) → Decidable (a = b)
  | [], [] => isTrue rfl
  | [], _ :: _ => isFalse (by simp)
  | _ :: _, [] => isFalse (by simp)
  | (k1, v1) :: xs, (k2, v2) :: ys =>
    if hk : k1 = k2 then
      match Json.decEq v1 v2, Json.decEqFields xs ys with
      | isTrue h1, isTrue h2 => isTrue (by rw [hk, h1, h2])
      | isFalse h1, _ => isFalse (by simp [h1])
      | _, isFalse h2 => isFalse (by simp [h2])
    else isFalse (by simp [hk])

end

instance : DecidableEq Json := Json.decEq

/-! ## JavaScript `Map` semantics over association lists -/

/-- `Map.prototype.get`: the binding of `k`, if any. -/
def mapGet {α : Type} (m : List (String × α)) (k : String) : Option α :=
  match m with
  | [] => none
  | p :: rest => if p.1 = k then some p.2 else mapGet rest k

/-- `Map.prototype.set`: replace the binding of `k` in place, else append. -/
def mapSet {α : Type} (m : List (String × α)) (k : String) (v : α) :
    List (String × α) :=
  match m with
  | [] => [(k, v)]
  | p :: rest => if p.1 = k then (k, v) :: rest else p :: mapSet rest k v

/-- `Map.prototype.delete`: remove the binding of `k`.  A JS map holds at
most one binding per key, so removing every binding of `k` coincides with
removing the single one. -/
def mapDelete {α : Type} (m : List (String × α)) (k : String) :
    List (String × α) :=
  match m with
  | [] => []
  | p :: rest => if p.1 = k then mapDelete rest k else p :: mapDelete rest k

theorem mapGet_mapSet_self {α : Type} (m : List (String × α)) (k : String)
    (v : α) : mapGet (mapSet m k v) k = some v := by
  induction m with
  | nil => simp [mapGet, mapSet]
  | cons p rest ih =>
    by_cases hp : p.1 = k
    · simp [mapGet, mapSet, hp]
    · simp [mapGet, mapSet, hp, ih]

theorem mapGet_mapSet_ne {α : Type} (m : List (String × α)) (k k' : String)
    (v : α) (h : k' ≠ k) : mapGet (mapSet m k v) k' = mapGet m k' := by
  have hk' : ¬ (k = k') := fun hk => h hk.symm
  induction m with
  | nil => simp [mapGet, mapSet, hk']
  | cons p rest ih =>
    by_cases hp : p.1 = k
    · simp only [mapSet, if_pos hp]
      have hp' : ¬ (p.1 = k') := by rw [hp]; exact hk'
      simp [mapGet, hk', hp']
    · simp only [mapSet, if_neg hp]
      by_cases hq : p.1 = k'
      · simp [mapGet, hq]
      · simp [mapGet, hq, ih]

theorem mapGet_mapDelete_self {α : Type} (m : List (String × α)) (k : String) :
    mapGet (mapDelete m k) k = none := by
  induction m with
  | nil => simp [mapGet, mapDelete]
  | cons p rest ih =>
    by_cases hp : p.1 = k
    · simpa [mapDelete, hp] using ih
    · simp [mapGet, mapDelete, hp, ih]

theorem mapGet_mapDelete_ne {α : Type} (m : List (String × α)) (k k' : String)
    (h : k' ≠ k) : mapGet (mapDelete m k) k' = mapGet m k' := by
  have hk' : ¬ (k = k') := fun hk => h hk.symm
  induction m with
  | nil => simp [mapGet, mapDelete]
  | cons p rest ih =>
    by_cases hp : p.1 = k
    · have hp' : ¬ (p.1 = k') := by rw [hp]; exact hk'
      simp [mapGet, mapDelete, hp, hp', hk', ih]
    · by_cases hq : p.1 = k'
      · simp [mapGet, mapDelete, hp, hq, h, ih]
      · simp [mapGet, mapDelete, hp, hq, ih]

/-! ## Connection registry (`backend/src/services/mcp-manager.ts`)

The manager holds two JS `Map`s: `connections` (live `MCPConnection`s) and
`pendingConnections` (half-open connections awaiting OAuth).  It also talks
to two persistent stores: the `oauth_sessions` table (via
`deleteOAuthSession`) and the `mcp_connections` table (via `mcpDb`).
Live protocol handles (`client`, `transport`) are I/O resources with no
observable state in this model and are omitted from the records. -/

inductive ConnStatus where
  | connected
  | disconnected
  | error
  | pending_auth
deriving DecidableEq, Repr

/-- `MCPTool` from `mcp-manager.ts` (name, optional description, schema). -/
structure MCPTool where
  name : String
  description : Option String
  inputSchema : List (String × Json)
deriving DecidableEq, Repr

/-- `MCPConnection` without the `client`/`transport` handles. -/
structure MCPConnectionM where
  id : String
  url : String
  name : String
  status : ConnStatus
  tools : List MCPTool
deriving DecidableEq, Repr

/-- An entry of the module-level `pendingConnections` map (the held
`transport`/`client`/`authProvider` handles are omitted). -/
structure PendingConnectionM where
  url : String
  name : String
deriving DecidableEq, Repr

/-- The manager's state: its two in-memory maps plus the two persistent
stores it mutates.  `oauthSessions` records which connection ids currently
have an `oauth_sessions` row; `mcpRows` maps connection ids to the `status`
column of their `mcp_connections` row. -/
structure MState where
  connections : List (String × MCPConnectionM)
  pending : List (String × PendingConnectionM)
  oauthSessions : List String
  mcpRows : List (String × String)
deriving DecidableEq, Repr

/-- The result element type of `getAllTools()`. -/
structure CatalogEntry where
  connectionId : String
  connectionName : String
  tool : MCPTool
deriving DecidableEq, Repr

/-- `getAllTools()`: flatten every registry connection's tool list, tagging
each tool with its owning connection's id and name. -/
def getAllTools (st : MState) : List CatalogEntry :=
  st.connections.flatMap (fun p =>
    p.2.tools.map (fun tool =>
      { connectionId := p.2.id, connectionName := p.2.name, tool := tool }))

/-- `deleteOAuthSession(id)`’s effect on the `oauth_sessions` table. -/
def deleteOAuthSessionRow (rows : List String) (id : String) : List String :=
  rows.filter (fun r => ¬ r = id)

/-- `disconnect(id)`.  `closeThrows` says whether `connection.client.close()`
throws (only possible when a live connection is present); the `catch` branch
then deletes everything and still returns `true`. -/
def disconnect (closeThrows : Bool) (st : MState) (id : String) :
    Bool × MState :=
  let connection := mapGet st.connections id
  let pending := mapGet st.pending id
  if connection = none ∧ pending = none then
    (false, st)
  else if closeThrows ∧ connection.isSome then
    -- catch branch: tear everything down regardless of the close error
    (true,
      { connections := mapDelete st.connections id
        pending := mapDelete st.pending id
        oauthSessions := deleteOAuthSessionRow st.oauthSessions id
        mcpRows := mapDelete st.mcpRows id })
  else
    (true,
      { connections :=
          if connection.isSome then mapDelete st.connections id
          else st.connections
        pending :=
          if pending.isSome then mapDelete st.pending id else st.pending
        oauthSessions := deleteOAuthSessionRow st.oauthSessions id
        mcpRows := mapDelete st.mcpRows id })

/-- `mcpDb.updateStatus`: `UPDATE ... SET status = ? WHERE id = ?` (updates
an existing row only, inserts nothing). -/
def mcpRowsUpdateStatus (rows : List (String × String)) (id status : String) :
    List (String × String) :=
  rows.map (fun p => if p.1 = id then (id, status) else p)

/-- One atomic operation of the manager as invoked through its public API:
`connect` (success / OAuth-required / other-failure), `completeOAuthConnection`
(success / failure), and `disconnect`.  Each constructor's resulting state is
the net effect of the corresponding source path.  The `connect` constructors
require the generated identifier to be fresh for both maps: it is a freshly
drawn `uuidv4()`, and every key ever put in either map is such a uuid. -/
inductive CoreStep : MState → MState → Prop
  /-- `connect` succeeding (lines 157-194): registry gains a `connected`
  entry and the row store is upserted with status `connected`. -/
  | connectOk (st : MState) (id url name : String) (tools : List MCPTool)
      (hc : mapGet st.connections id = none)
      (hp : mapGet st.pending id = none) :
      CoreStep st
        { st with
          connections := mapSet st.connections id
            { id := id, url := url, name := name,
              status := ConnStatus.connected, tools := tools }
          mcpRows := mapSet st.mcpRows id "connected" }
  /-- `connect` hitting `UnauthorizedError` with a captured authorization URL
  (lines 199-237): a pending entry is created, the row store gets status
  `pending_auth`, and the captured URL is cleared (a field-level write to the
  oauth row, which leaves row existence unchanged). -/
  | connectAuthRequired (st : MState) (id url name : String)
      (hc : mapGet st.connections id = none)
      (hp : mapGet st.pending id = none) :
      CoreStep st
        { st with
          pending := mapSet st.pending id { url := url, name := name }
          mcpRows := mapSet st.mcpRows id "pending_auth" }
  /-- `connect` failing for any other reason (lines 244-247): the credential
  record and row are purged; the maps never saw the fresh id. -/
  | connectFail (st : MState) (id : String)
      (hc : mapGet st.connections id = none)
      (hp : mapGet st.pending id = none) :
      CoreStep st
        { st with
          oauthSessions := deleteOAuthSessionRow st.oauthSessions id
          mcpRows := mapDelete st.mcpRows id }
  /-- `completeOAuthConnection` succeeding (lines 251-304): the pending entry
  is promoted to a `connected` registry entry and removed from the pending
  map; the row status becomes `connected`. -/
  | completeOAuthOk (st : MState) (id : String) (p : PendingConnectionM)
      (tools : List MCPTool) (hp : mapGet st.pending id = some p) :
      CoreStep st
        { st with
          connections := mapSet st.connections id
            { id := id, url := p.url, name := p.name,
              status := ConnStatus.connected, tools := tools }
          pending := mapDelete st.pending id
          mcpRows := mcpRowsUpdateStatus st.mcpRows id "connected" }
  /-- `completeOAuthConnection` failing (lines 305-311): pending entry,
  credential record and row are all deleted. -/
  | completeOAuthFail (st : MState) (id : String) (p : PendingConnectionM)
      (hp : mapGet st.pending id = some p) :
      CoreStep st
        { st with
          pending := mapDelete st.pending id
          oauthSessions := deleteOAuthSessionRow st.oauthSessions id
          mcpRows := mapDelete st.mcpRows id }
  /-- `disconnect` (lines 314-344), including the not-found no-op. -/
  | disconnectStep (st : MState) (id : String) (closeThrows : Bool) :
      CoreStep st (disconnect closeThrows st id).2

/-- The full step relation adds the startup-recovery operation
`reconnect` (lines 80-127), which reinstalls a saved connection with status
`connected`, and its failure path (`mcpDb.updateStatus(id, 'disconnected')`).
Claim C2 is stated over `CoreStep` only, matching its operation list. -/
inductive FullStep : MState → MState → Prop
  | core {st st' : MState} (h : CoreStep st st') : FullStep st st'
  /-- `reconnect` succeeding: the registry entry is stored with status
  `connected` and the row status updated. -/
  | reconnectOk (st : MState) (id url name : String) (tools : List MCPTool) :
      FullStep st
        { st with
          connections := mapSet st.connections id
            { id := id, url := url, name := name,
              status := ConnStatus.connected, tools := tools }
          mcpRows := mcpRowsUpdateStatus st.mcpRows id "connected" }
  /-- `reconnect` failing (no tokens, or connect/listTools error): the row is
  marked `disconnected`; the maps are untouched. -/
  | reconnectFail (st : MState) (id : String) :
      FullStep st
        { st with
          mcpRows := mcpRowsUpdateStatus st.mcpRows id "disconnected" }
  /-- A write performed by the OAuth client provider during a handshake
  (`oauthDb.upsert`), which can create the connection's credential row. -/
  | oauthRowWrite (st : MState) (id : String) :
      FullStep st { st with oauthSessions := id :: st.oauthSessions }

/-- The manager's initial state: both maps empty, both tables empty. -/
def initialMState : MState :=
  { connections := [], pending := [], oauthSessions := [], mcpRows := [] }

/-- States reachable through any interleaving of all modelled operations. -/
inductive ReachableFull : MState → Prop
  | init : ReachableFull initialMState
  | step {st st' : MState} (h : ReachableFull st) (hs : FullStep st st') :
      ReachableFull st'

/-- States reachable through `connect`, `completeOAuthConnection` and
`disconnect` alone (the operation list of claim C2). -/
inductive ReachableCore : MState → Prop
  | init : ReachableCore initialMState
  | step {st st' : MState} (h : ReachableCore st) (hs : CoreStep st st') :
      ReachableCore st'

/-! ### Registry lemmas -/

theorem mem_mapSet {α : Type} {m : List (String × α)} {k : String} {v : α}
    {p : String × α} (h : p ∈ mapSet m k v) : p = (k, v) ∨ p ∈ m := by
  induction m with
  | nil => simpa [mapSet] using h
  | cons q rest ih =>
    by_cases hq : q.1 = k
    · simp only [mapSet, if_pos hq, List.mem_cons] at h
      rcases h with h | h
      · exact Or.inl h
      · exact Or.inr (List.mem_cons_of_mem q h)
    · simp only [mapSet, if_neg hq, List.mem_cons] at h
      rcases h with h | h
      · exact Or.inr (by simp [h])
      · rcases ih h with h' | h'
        · exact Or.inl h'
        · exact Or.inr (List.mem_cons_of_mem q h')

theorem mem_mapDelete {α : Type} {m : List (String × α)} {k : String}
    {p : String × α} (h : p ∈ mapDelete m k) : p ∈ m := by
  induction m with
  | nil => simpa [mapDelete] using h
  | cons q rest ih =>
    by_cases hq : q.1 = k
    · simp only [mapDelete, if_pos hq] at h
      exact List.mem_cons_of_mem q (ih h)
    · simp only [mapDelete, if_neg hq, List.mem_cons] at h
      rcases h with h | h
      · exact (by simp [h])
      · exact List.mem_cons_of_mem q (ih h)

theorem mapGet_mem {α : Type} {m : List (String × α)} {k : String} {v : α}
    (h : (k, v) ∈ m) : ∃ w, mapGet m k = some w ∧ (k, w) ∈ m := by
  induction m with
  | nil => simp at h
  | cons q rest ih =>
    by_cases hq : q.1 = k
    · refine ⟨q.2, by simp [mapGet, hq], ?_⟩
      have : (k, q.2) = q := by
        cases q with
        | mk a b => simp at hq; simp [hq]
      rw [this]
      exact List.mem_cons_self q rest
    · have hm : (k, v) ∈ rest := by
        rcases List.mem_cons.mp h with h' | h'
        · exact absurd (by rw [← h']) hq
        · exact h'
      rcases ih hm with ⟨w, hw1, hw2⟩
      exact ⟨w, by simp [mapGet, hq, hw1], List.mem_cons_of_mem q hw2⟩

theorem mapDelete_of_get_none {α : Type} {m : List (String × α)} {k : String}
    (h : mapGet m k = none) : mapDelete m k = m := by
  induction m with
  | nil => simp [mapDelete]
  | cons q rest ih =>
    by_cases hq : q.1 = k
    · simp [mapGet, hq] at h
    · simp only [mapGet, if_neg hq] at h
      simp [mapDelete, hq, ih h]

theorem disconnect_connections_get (b : Bool) (st : MState) (id id' : String) :
    mapGet (disconnect b st id).2.connections id' =
      if id' = id then none else mapGet st.connections id' := by
  unfold disconnect
  by_cases hfound : mapGet st.connections id = none ∧ mapGet st.pending id = none
  · simp only [if_pos hfound]
    by_cases hid : id' = id
    · simp [hid, hfound.1]
    · simp [hid]
  · simp only [if_neg hfound]
    by_cases hthrow : b ∧ (mapGet st.connections id).isSome
    · simp only [if_pos hthrow]
      by_cases hid : id' = id
      · simp [hid, mapGet_mapDelete_self]
      · simp [hid, mapGet_mapDelete_ne _ _ _ hid]
    · simp only [if_neg hthrow]
      by_cases hc : (mapGet st.connections id).isSome
      · simp only [if_pos hc]
        by_cases hid : id' = id
        · simp [hid, mapGet_mapDelete_self]
        · simp [hid, mapGet_mapDelete_ne _ _ _ hid]
      · simp only [if_neg hc]
        by_cases hid : id' = id
        · simp only [if_pos hid, hid]
          simpa using Option.not_isSome_iff_eq_none.mp hc
        · simp [hid]

theorem disconnect_pending_get (b : Bool) (st : MState) (id id' : String) :
    mapGet (disconnect b st id).2.pending id' =
      if id' = id then none else mapGet st.pending id' := by
  unfold disconnect
  by_cases hfound : mapGet st.connections id = none ∧ mapGet st.pending id = none
  · simp only [if_pos hfound]
    by_cases hid : id' = id
    · simp [hid, hfound.2]
    · simp [hid]
  · simp only [if_neg hfound]
    by_cases hthrow : b ∧ (mapGet st.connections id).isSome
    · simp only [if_pos hthrow]
      by_cases hid : id' = id
      · simp [hid, mapGet_mapDelete_self]
      · simp [hid, mapGet_mapDelete_ne _ _ _ hid]
    · simp only [if_neg hthrow]
      by_cases hp : (mapGet st.pending id).isSome
      · simp only [if_pos hp]
        by_cases hid : id' = id
        · simp [hid, mapGet_mapDelete_self]
        · simp [hid, mapGet_mapDelete_ne _ _ _ hid]
      · simp only [if_neg hp]
        by_cases hid : id' = id
        · simp only [if_pos hid, hid]
          simpa using Option.not_isSome_iff_eq_none.mp hp
        · simp [hid]

theorem disconnect_connections_mem (b : Bool) (st : MState) (id : String)
    {p : String × MCPConnectionM}
    (h : p ∈ (disconnect b st id).2.connections) : p ∈ st.connections := by
  unfold disconnect at h
  by_cases hfound : mapGet st.connections id = none ∧ mapGet st.pending id = none
  · simpa [if_pos hfound] using h
  · simp only [if_neg hfound] at h
    by_cases hthrow : b ∧ (mapGet st.connections id).isSome
    · exact mem_mapDelete (by simpa [if_pos hthrow] using h)
    · simp only [if_neg hthrow] at h
      by_cases hc : (mapGet st.connections id).isSome
      · exact mem_mapDelete (by simpa [if_pos hc] using h)
      · simpa [if_neg hc] using h

/-- Invariant: every entry of the `connections` map is keyed by its own
connection id and has status `connected` — the registry only ever stores
connections created with `status: 'connected'`, and never mutates a stored
status in place. -/
theorem connections_inv (st : MState) (h : ReachableFull st) :
    ∀ p ∈ st.connections,
      p.2.id = p.1 ∧ p.2.status = ConnStatus.connected := by
  induction h with
  | init => intro p hp; simp [initialMState] at hp
  | step h hs ih =>
    cases hs with
    | core hc =>
      cases hc with
      | connectOk id url name tools hcg hpg =>
        intro p hp
        rcases mem_mapSet hp with h' | h'
        · subst h'; exact ⟨rfl, rfl⟩
        · exact ih p h'
      | connectAuthRequired id url name hcg hpg => exact ih
      | connectFail id hcg hpg => exact ih
      | completeOAuthOk id pnd tools hpg =>
        intro p hp
        rcases mem_mapSet hp with h' | h'
        · subst h'; exact ⟨rfl, rfl⟩
        · exact ih p h'
      | completeOAuthFail id pnd hpg => exact ih
      | disconnectStep id closeThrows =>
        intro p hp
        exact ih p (disconnect_connections_mem closeThrows _ id hp)
    | reconnectOk id url name tools =>
      intro p hp
      rcases mem_mapSet hp with h' | h'
      · subst h'; exact ⟨rfl, rfl⟩
      · exact ih p h'
    | reconnectFail id => exact ih
    | oauthRowWrite id => exact ih

/-! ### Claims C1, C2, C9 -/

/-- C1: in every reachable state of the connection registry, every entry of
`getAllTools()` belongs to a connection whose registry entry has status
`connected` — no tool of a `disconnected`, `error` or `pending_auth`
connection ever appears in the flattened catalog. -/
theorem C1_getAllTools_only_connected (st : MState) (h : ReachableFull st) :
    ∀ e ∈ getAllTools st,
      ∃ c, mapGet st.connections e.connectionId = some c ∧
        c.status = ConnStatus.connected := by
  intro e he
  have hinv := connections_inv st h
  unfold getAllTools at he
  rcases List.mem_flatMap.mp he with ⟨p, hpmem, hemem⟩
  rcases List.mem_map.mp hemem with ⟨tool, _htool, rfl⟩
  have hid : p.2.id = p.1 := (hinv p hpmem).1
  have hmem : (p.2.id, p.2) ∈ st.connections := by
    rw [hid]
    cases p with
    | mk a b => exact hpmem
  rcases mapGet_mem hmem with ⟨w, hw1, hw2⟩
  exact ⟨w, hw1, (hinv _ hw2).2⟩

/-- Sample tool used by concrete witnesses. -/
def toolA : MCPTool :=
  { name := "add", description := some "Adds numbers",
    inputSchema := [("type", Json.str "object")] }

theorem C1_witness :
    ∃ c,
      mapGet
        ({ initialMState with
          connections := mapSet initialMState.connections "c1"
            { id := "c1", url := "http://x", name := "srv",
              status := ConnStatus.connected, tools := [toolA] }
          mcpRows := mapSet initialMState.mcpRows "c1" "connected" } :
            MState).connections "c1" = some c ∧
        c.status = ConnStatus.connected :=
  C1_getAllTools_only_connected _
    (ReachableFull.step ReachableFull.init
      (FullStep.core
        (CoreStep.connectOk initialMState "c1" "http://x" "srv" [toolA]
          rfl rfl)))
    { connectionId := "c1", connectionName := "srv", tool := toolA }
    (by simp [getAllTools, initialMState, mapSet])

/-- C2: through any sequence of `connect`, `completeOAuthConnection` and
`disconnect` operations, no connection identifier is ever present in both
the connection registry and the pending map at once. -/
theorem C2_registry_pending_exclusive (st : MState) (h : ReachableCore st) :
    ∀ id, mapGet st.connections id = none ∨ mapGet st.pending id = none := by
  induction h with
  | init => intro id; left; rfl
  | step h hs ih =>
    cases hs with
    | connectOk id0 url name tools hcg hpg =>
      intro id
      by_cases hid : id = id0
      · subst hid; right; exact hpg
      · dsimp only
        rw [mapGet_mapSet_ne _ _ _ _ hid]
        exact ih id
    | connectAuthRequired id0 url name hcg hpg =>
      intro id
      by_cases hid : id = id0
      · subst hid; left; exact hcg
      · dsimp only
        rw [mapGet_mapSet_ne _ _ _ _ hid]
        exact ih id
    | connectFail id0 hcg hpg => exact ih
    | completeOAuthOk id0 pnd tools hpg =>
      intro id
      by_cases hid : id = id0
      · subst hid; right; exact mapGet_mapDelete_self _ _
      · dsimp only
        rw [mapGet_mapSet_ne _ _ _ _ hid, mapGet_mapDelete_ne _ _ _ hid]
        exact ih id
    | completeOAuthFail id0 pnd hpg =>
      intro id
      by_cases hid : id = id0
      · subst hid; right; exact mapGet_mapDelete_self _ _
      · dsimp only
        rw [mapGet_mapDelete_ne _ _ _ hid]
        exact ih id
    | disconnectStep id0 closeThrows =>
      intro id
      rw [disconnect_connections_get, disconnect_pending_get]
      by_cases hid : id = id0
      · left; simp [hid]
      · simp only [if_neg hid]
        exact ih id

theorem C2_witness :
    mapGet
      ({ initialMState with
        pending := mapSet initialMState.pending "c2"
          { url := "http://y", name := "oauth-srv" }
        mcpRows := mapSet initialMState.mcpRows "c2" "pending_auth" } :
          MState).connections "c2" = none ∨
    mapGet
      ({ initialMState with
        pending := mapSet initialMState.pending "c2"
          { url := "http://y", name := "oauth-srv" }
        mcpRows := mapSet initialMState.mcpRows "c2" "pending_auth" } :
          MState).pending "c2" = none :=
  C2_registry_pending_exclusive _
    (ReachableCore.step ReachableCore.init
      (CoreStep.connectAuthRequired initialMState "c2" "http://y" "oauth-srv"
        rfl rfl))
    "c2"

/-- C9: `disconnect(id)` on an identifier in neither map returns `false` and
leaves the whole state untouched; on an identifier in either map it returns
`true` — even when closing the live session throws — and removes the
registry entry, the pending entry, the credential record and the
session-store row. -/
theorem C9_disconnect_spec (closeThrows : Bool) (st : MState) (id : String) :
    (mapGet st.connections id = none → mapGet st.pending id = none →
      disconnect closeThrows st id = (false, st)) ∧
    ((mapGet st.connections id).isSome ∨ (mapGet st.pending id).isSome →
      disconnect closeThrows st id =
        (true,
          { connections := mapDelete st.connections id
            pending := mapDelete st.pending id
            oauthSessions := deleteOAuthSessionRow st.oauthSessions id
            mcpRows := mapDelete st.mcpRows id })) := by
  constructor
  · intro h1 h2
    simp only [disconnect]
    rw [if_pos ⟨h1, h2⟩]
  · intro hfound
    have hnf : ¬ (mapGet st.connections id = none ∧
        mapGet st.pending id = none) := by
      rintro ⟨h1, h2⟩
      rcases hfound with h | h
      · rw [h1] at h; simp at h
      · rw [h2] at h; simp at h
    simp only [disconnect]
    rw [if_neg hnf]
    by_cases hthrow : closeThrows ∧ (mapGet st.connections id).isSome
    · rw [if_pos hthrow]
    · rw [if_neg hthrow]
      by_cases hc : (mapGet st.connections id).isSome
      · by_cases hp : (mapGet st.pending id).isSome
        · simp [hc, hp]
        · have hpn : mapGet st.pending id = none :=
            Option.not_isSome_iff_eq_none.mp hp
          simp [hc, hp, mapDelete_of_get_none hpn]
      · have hcn : mapGet st.connections id = none :=
          Option.not_isSome_iff_eq_none.mp hc
        have hp : (mapGet st.pending id).isSome := by
          rcases hfound with h | h
          · rw [hcn] at h; simp at h
          · exact h
        simp [hc, hp, mapDelete_of_get_none hcn]

theorem C9_witness :
    disconnect false initialMState "ghost" = (false, initialMState) ∧
    disconnect true
      ({ initialMState with
        connections := [("c1",
          { id := "c1", url := "http://x", name := "srv",
            status := ConnStatus.connected, tools := [toolA] })]
        oauthSessions := ["c1"]
        mcpRows := [("c1", "connected")] } : MState) "c1" =
      (true,
        { connections := mapDelete [("c1",
            { id := "c1", url := "http://x", name := "srv",
              status := ConnStatus.connected, tools := [toolA] })] "c1"
          pending := mapDelete [] "c1"
          oauthSessions := deleteOAuthSessionRow ["c1"] "c1"
          mcpRows := mapDelete [("c1", "connected")] "c1" }) :=
  ⟨(C9_disconnect_spec false initialMState "ghost").1 rfl rfl,
    (C9_disconnect_spec true _ "c1").2 (Or.inl (by simp [mapGet]))⟩

/-! ## Tool-name namespacing (`backend/src/services/openrouter.ts`)

`convertMCPToolsToOpenRouterFormat` composes the catalog name
`` `${connectionId}__${tool.name}` `` and `executeTool` decomposes it with
`functionName.split('__')`, taking the first part as the connection id and
rejoining the remainder with `'__'`.  Strings are modelled as `List Char`
here so that the character-level behaviour of `split` is explicit. -/

/-- `String.prototype.split('__')`: split on each leftmost, non-overlapping
occurrence of the two-character separator. -/
def splitSep : List Char → List (List Char)
  | [] => [[]]
  | [c] => [[c]]
  | c :: d :: rest =>
    if c = '_' ∧ d = '_' then
      [] :: splitSep rest
    else
      match splitSep (d :: rest) with
      | [] => [[c]]
      | h :: t => (c :: h) :: t

/-- `Array.prototype.join('__')`. -/
def joinSep : List (List Char) → List Char
  | [] => []
  | [x] => x
  | x :: xs => x ++ '_' :: '_' :: joinSep xs

/-- `` `${connectionId}__${toolName}` `` from
`convertMCPToolsToOpenRouterFormat`. -/
def composeToolName (connectionId toolName : List Char) : List Char :=
  connectionId ++ '_' :: '_' :: toolName

/-- `executeTool`'s decomposition:
`const [connectionId, ...toolNameParts] = functionName.split('__')`,
`const toolName = toolNameParts.join('__')`. -/
def decomposeToolName (functionName : List Char) :
    List Char × List Char :=
  match splitSep functionName with
  | [] => ([], [])
  | connectionId :: toolNameParts =>
    (connectionId, joinSep toolNameParts)

/-- Does the list contain an occurrence of the separator `"__"`? -/
def hasSepOcc : List Char → Bool
  | [] => false
  | [_] => false
  | c :: d :: rest =>
    if c = '_' ∧ d = '_' then true else hasSepOcc (d :: rest)

/-- Does the (nonempty) list end in `'_'`? -/
def endsUnderscore : List Char → Bool
  | [] => false
  | [c] => c = '_'
  | _ :: rest => endsUnderscore rest

theorem splitSep_ne_nil (l : List Char) : splitSep l ≠ [] := by
  match l with
  | [] => simp [splitSep]
  | [c] => simp [splitSep]
  | c :: d :: rest =>
    by_cases h : c = '_' ∧ d = '_'
    · simp [splitSep, h]
    · have := splitSep_ne_nil (d :: rest)
      simp only [splitSep, if_neg h]
      match hsp : splitSep (d :: rest) with
      | [] => exact absurd hsp this
      | x :: xs => simp

theorem joinSep_cons_head (c : Char) (h : List Char) (t : List (List Char)) :
    joinSep ((c :: h) :: t) = c :: joinSep (h :: t) := by
  match t with
  | [] => simp [joinSep]
  | y :: ys => simp [joinSep]

/-- `join('__')` is a left inverse of `split('__')`. -/
theorem joinSep_splitSep (l : List Char) : joinSep (splitSep l) = l := by
  match l with
  | [] => simp [splitSep, joinSep]
  | [c] => simp [splitSep, joinSep]
  | c :: d :: rest =>
    by_cases h : c = '_' ∧ d = '_'
    · have ih := joinSep_splitSep rest
      obtain ⟨rfl, rfl⟩ := h
      rw [show splitSep ('_' :: '_' :: rest) = [] :: splitSep rest from by
        simp [splitSep]]
      match hsp : splitSep rest with
      | [] => exact absurd hsp (splitSep_ne_nil rest)
      | x :: xs =>
        rw [hsp] at ih
        simpa [joinSep] using ih
    · have ih := joinSep_splitSep (d :: rest)
      simp only [splitSep, if_neg h]
      match hsp : splitSep (d :: rest) with
      | [] => exact absurd hsp (splitSep_ne_nil (d :: rest))
      | x :: xs =>
        rw [hsp] at ih
        rw [joinSep_cons_head, ih]

/-- The first separator occurrence in `id ++ "__" ++ name` sits exactly at
the end of `id`, provided `id` has no internal occurrence and does not end
in `'_'`. -/
theorem splitSep_compose (id name : List Char)
    (hsep : hasSepOcc id = false) (hend : endsUnderscore id = false) :
    splitSep (id ++ '_' :: '_' :: name) = id :: splitSep name := by
  match id with
  | [] => simp [splitSep]
  | [c] =>
    have hc : ¬ (c = '_') := by simpa [endsUnderscore] using hend
    simp only [List.cons_append, List.nil_append]
    rw [show splitSep (c :: '_' :: '_' :: name) =
      (match splitSep ('_' :: '_' :: name) with
        | [] => [[c]]
        | h :: t => (c :: h) :: t) from by
        simp [splitSep, hc]]
    rw [show splitSep ('_' :: '_' :: name) = [] :: splitSep name from by
      simp [splitSep]]
  | c :: d :: rest =>
    have hsep' : hasSepOcc (d :: rest) = false := by
      by_cases h : c = '_' ∧ d = '_'
      · simp [hasSepOcc, h] at hsep
      · simpa [hasSepOcc, h] using hsep
    have hend' : endsUnderscore (d :: rest) = false := by
      simpa [endsUnderscore] using hend
    have hne : ¬ (c = '_' ∧ d = '_') := by
      intro h
      simp [hasSepOcc, h] at hsep
    have ih := splitSep_compose (d :: rest) name hsep' hend'
    simp only [List.cons_append]
    rw [show splitSep (c :: d :: (rest ++ '_' :: '_' :: name)) =
      (match splitSep (d :: (rest ++ '_' :: '_' :: name)) with
        | [] => [[c]]
        | h :: t => (c :: h) :: t) from by
        simp [splitSep, hne]]
    rw [show (d :: (rest ++ '_' :: '_' :: name)) =
      ((d :: rest) ++ '_' :: '_' :: name) from rfl]
    rw [ih]

/-- C6 (counterexample): the identifier `"a_"` contains no `"__"`, yet
decomposing `compose("a_", "b") = "a___b"` yields `("a", "_b")`, not
`("a_", "b")` — the first separator occurrence crosses the boundary between
the identifier's trailing `'_'` and the separator. -/
theorem C6_counterexample :
    hasSepOcc ['a', '_'] = false ∧
    decomposeToolName (composeToolName ['a', '_'] ['b']) ≠
      (['a', '_'], ['b']) := by
  decide

/-- C6 (amended): for every connection identifier that neither contains the
separator `"__"` nor ends in `'_'`, and every tool name (which may itself
contain `"__"`), decomposing the composite `"{connectionId}__{toolName}"`
recovers exactly the original identifier and tool name. -/
theorem C6_roundtrip (connectionId toolName : List Char)
    (hsep : hasSepOcc connectionId = false)
    (hend : endsUnderscore connectionId = false) :
    decomposeToolName (composeToolName connectionId toolName) =
      (connectionId, toolName) := by
  unfold composeToolName decomposeToolName
  rw [splitSep_compose _ _ hsep hend]
  simp [joinSep_splitSep]

theorem C6_roundtrip_witness :
    decomposeToolName
        (composeToolName ['c', '1'] ['x', '_', '_', 'y']) =
      (['c', '1'], ['x', '_', '_', 'y']) :=
  C6_roundtrip ['c', '1'] ['x', '_', '_', 'y'] (by decide) (by decide)

/-! ## OAuth-session upsert (`backend/src/services/database.ts`)

`oauthDb.upsert` binds each optional field with `data.field ?? null` and runs

```
INSERT INTO oauth_sessions (connection_id, tokens, code_verifier,
  client_info, authorization_url, state, updated_at)
VALUES (..., unixepoch())
ON CONFLICT(connection_id) DO UPDATE SET
  tokens        = COALESCE($tokens, tokens),
  code_verifier = COALESCE($code_verifier, code_verifier),
  client_info   = COALESCE($client_info, client_info),
  authorization_url = $authorization_url,
  state         = COALESCE($state, state),
  updated_at    = unixepoch()
```

Note the asymmetry: `authorization_url` is assigned directly, without
`COALESCE`. -/

/-- SQL `COALESCE(a, b)` over two nullable text values. -/
def coalesce (a b : Option String) : Option String :=
  match a with
  | some v => some v
  | none => b

/-- The bind parameters of `oauthDb.upsert` after its `?? null` conversion:
`none` models SQL `NULL` bound for a field the caller did not name. -/
structure OAuthUpsertData where
  tokens : Option String
  code_verifier : Option String
  client_info : Option String
  authorization_url : Option String
  state : Option String
deriving DecidableEq, Repr

/-- A row of the `oauth_sessions` table (`OAuthSessionRow`). -/
structure OAuthSessionRow where
  connection_id : String
  tokens : Option String
  code_verifier : Option String
  client_info : Option String
  authorization_url : Option String
  state : Option String
  created_at : Nat
  updated_at : Nat
deriving DecidableEq, Repr

/-- The effect of the `upsertOAuthSession` prepared statement on the row for
`connectionId` (`existing` is the row already present, if any; `now` is
`unixepoch()`). -/
def upsertOAuthSession (now : Nat) (existing : Option OAuthSessionRow)
    (connectionId : String) (data : OAuthUpsertData) : OAuthSessionRow :=
  match existing with
  | none =>
    { connection_id := connectionId
      tokens := data.tokens
      code_verifier := data.code_verifier
      client_info := data.client_info
      authorization_url := data.authorization_url
      state := data.state
      created_at := now
      updated_at := now }
  | some row =>
    { row with
      tokens := coalesce data.tokens row.tokens
      code_verifier := coalesce data.code_verifier row.code_verifier
      client_info := coalesce data.client_info row.client_info
      authorization_url := data.authorization_url
      state := coalesce data.state row.state
      updated_at := now }

/-- C5 (counterexample): an upsert that names only `tokens` erases a
previously stored `authorization_url` (its `SET` clause has no `COALESCE`),
so an unnamed sibling field does not keep its previous value. -/
theorem C5_counterexample :
    (upsertOAuthSession 100
        (some
          { connection_id := "c1", tokens := none, code_verifier := none,
            client_info := none,
            authorization_url := some "https://auth.example/consent",
            state := none, created_at := 50, updated_at := 50 })
        "c1"
        { tokens := some "tok", code_verifier := none, client_info := none,
          authorization_url := none, state := none }).authorization_url =
      none := by
  decide

/-- C5 (amended): for an upsert against an existing row, the four fields
`tokens`, `code_verifier`, `client_info` and `state` merge — any of them not
named by the write keeps its previous value — while `authorization_url` is
always overwritten with the supplied value (SQL `NULL` when the write does
not name it). -/
theorem C5_upsert_merge (now : Nat) (row : OAuthSessionRow) (cid : String)
    (data : OAuthUpsertData) :
    (data.tokens = none →
      (upsertOAuthSession now (some row) cid data).tokens = row.tokens) ∧
    (data.code_verifier = none →
      (upsertOAuthSession now (some row) cid data).code_verifier =
        row.code_verifier) ∧
    (data.client_info = none →
      (upsertOAuthSession now (some row) cid data).client_info =
        row.client_info) ∧
    (data.state = none →
      (upsertOAuthSession now (some row) cid data).state = row.state) ∧
    (upsertOAuthSession now (some row) cid data).authorization_url =
      data.authorization_url := by
  refine ⟨?_, ?_, ?_, ?_, ?_⟩
  · intro h; simp [upsertOAuthSession, coalesce, h]
  · intro h; simp [upsertOAuthSession, coalesce, h]
  · intro h; simp [upsertOAuthSession, coalesce, h]
  · intro h; simp [upsertOAuthSession, coalesce, h]
  · simp [upsertOAuthSession]

theorem C5_upsert_merge_witness :
    ((({ tokens := some "tok", code_verifier := none, client_info := none,
          authorization_url := none, state := none } :
        OAuthUpsertData).code_verifier = none) →
      (upsertOAuthSession 100
        (some
          { connection_id := "c1", tokens := none,
            code_verifier := some "ver", client_info := none,
            authorization_url := none, state := none,
            created_at := 50, updated_at := 50 })
        "c1"
        { tokens := some "tok", code_verifier := none, client_info := none,
          authorization_url := none, state := none }).code_verifier =
        some "ver") ∧
    (upsertOAuthSession 100
      (some
        { connection_id := "c1", tokens := none,
          code_verifier := some "ver", client_info := none,
          authorization_url := none, state := none,
          created_at := 50, updated_at := 50 })
      "c1"
      { tokens := some "tok", code_verifier := none, client_info := none,
        authorization_url := none, state := none }).code_verifier =
      some "ver" :=
  ⟨(C5_upsert_merge 100 _ "c1" _).2.1,
    (C5_upsert_merge 100 _ "c1" _).2.1 rfl⟩

/-! ## Schema sanitizer (`backend/src/services/openrouter.ts`)

`sanitizeSchemaDefinition` walks a `Record<string, unknown>`: it drops keys
starting with `'$'` and keys outside a fixed allow-list, recurses into
`properties` (whose field names are data, never filtered), `items`,
`anyOf`/`oneOf`/`allOf` arrays and schema-valued `additionalProperties`,
and de-duplicates `required` (keeping first occurrences, as
`[...new Set(xs)]` does).

JS quirks mirrored here:
* `value && typeof value === 'object'` is true for objects *and arrays* and
  false for `null` (`isObjLike` below).
* Passing an array to `sanitizeSchemaDefinition` enumerates its index keys
  `"0", "1", …` via `Object.entries`; none of those keys is in the
  allow-list, so the result is always the empty object (`sanRecordOf`
  returns `[]` for arrays).
* In the `properties` branch the entries of an array value are kept (field
  names are data), producing an index-keyed object (`sanPropArr`). -/

/-- `allowedSchemaProps` (the fixed allow-list). -/
def allowedSchemaProps : List String :=
  ["type", "properties", "required", "description", "additionalProperties",
   "items", "enum", "default", "title", "anyOf", "oneOf", "allOf", "not",
   "minimum", "maximum", "minLength", "maxLength", "pattern", "format",
   "minItems", "maxItems", "uniqueItems", "const", "examples",
   "minProperties", "maxProperties", "propertyNames", "nullable"]

/-- `key.startsWith('$')`: with the one-character prefix `'$'` this is
exactly a first-character test. -/
def startsWithDollar (k : String) : Bool :=
  match k.data with
  | [] => false
  | c :: _ => c = '$'

/-- `value && typeof value === 'object'`. -/
def isObjLike : Json → Bool
  | .obj _ => true
  | .arr _ => true
  | _ => false

/-- `[...new Set(xs)]`: de-duplicate, keeping first occurrences.  `seen`
accumulates the values already emitted. -/
def dedupFirstAux (seen : List Json) : List Json → List Json
  | [] => []
  | x :: xs =>
    if x ∈ seen then dedupFirstAux seen xs
    else x :: dedupFirstAux (x :: seen) xs

/-- `[...new Set(xs)]`. -/
def dedupFirst (xs : List Json) : List Json :=
  dedupFirstAux [] xs

mutual

/-- The loop body of `sanitizeSchemaDefinition` over the object's entries:
skip `$`-prefixed keys, skip keys outside the allow-list, otherwise keep the
key with its (possibly recursively sanitized) value. -/
def sanFields : List (String × Json) → List (String × Json)
  | [] => []
  | (k, v) :: rest =>
    if startsWithDollar k then sanFields rest
    else if allowedSchemaProps.contains k then
      (k, sanVal k v) :: sanFields rest
    else sanFields rest

/-- How one kept entry's value is transformed, by key and value shape;
this reproduces the branch chain of `sanitizeSchemaDefinition`. -/
def sanVal (k : String) (v : Json) : Json :=
  match v with
  | .obj fs =>
    if k = "properties" then .obj (sanPropFields fs)
    else if k = "items" then .obj (sanFields fs)
    else if k = "additionalProperties" then .obj (sanFields fs)
    else .obj fs
  | .arr xs =>
    if k = "properties" then .obj (sanPropArr 0 xs)
    else if k = "items" then .obj []
    else if k = "anyOf" ∨ k = "oneOf" ∨ k = "allOf" then .arr (sanList xs)
    else if k = "additionalProperties" then .obj []
    else if k = "required" then .arr (dedupFirst xs)
    else .arr xs
  | _ => v

/-- The `properties` branch over an object value: field names are data and
are kept; object-like field schemas are sanitized recursively. -/
def sanPropFields : List (String × Json) → List (String × Json)
  | [] => []
  | (n, s) :: rest => (n, sanFieldSchema s) :: sanPropFields rest

/-- The `properties` branch over an array value: `Object.entries` yields the
index keys `"0", "1", …`, which are field names and therefore kept. -/
def sanPropArr (i : Nat) : List Json → List (String × Json)
  | [] => []
  | x :: xs => (toString i, sanFieldSchema x) :: sanPropArr (i + 1) xs

/-- `fieldSchema && typeof fieldSchema === 'object' ?
sanitizeSchemaDefinition(fieldSchema) : fieldSchema` — an array argument
enumerates to index keys only, all filtered, giving the empty object. -/
def sanFieldSchema (s : Json) : Json :=
  match s with
  | .obj fs => .obj (sanFields fs)
  | .arr _ => .obj []
  | _ => s

/-- The composition-keyword branch: sanitize object-like items of the
`anyOf`/`oneOf`/`allOf` array, copy the rest. -/
def sanList : List Json → List Json
  | [] => []
  | x :: xs => sanFieldSchema x :: sanList xs

end

/-- Truthiness of a JS value (as in `!sanitized.type`).  `NaN` does not
occur: the sanitizer only copies values, never computes numbers. -/
def truthy : Json → Bool
  | .null => false
  | .bool b => b
  | .num n => n ≠ 0
  | .str s => s ≠ ""
  | .arr _ => true
  | .obj _ => true

/-- Truthiness of a possibly-absent property (`undefined` is falsy). -/
def truthyOpt : Option Json → Bool
  | none => false
  | some v => truthy v

/-- Property read `o[k]` on an object's field list. -/
def lookupField (fs : List (String × Json)) (k : String) : Option Json :=
  match fs with
  | [] => none
  | p :: rest => if p.1 = k then some p.2 else lookupField rest k

/-- Property write `o[k] = v`: replace in place, else append. -/
def setField (fs : List (String × Json)) (k : String) (v : Json) :
    List (String × Json) :=
  match fs with
  | [] => [(k, v)]
  | p :: rest => if p.1 = k then (k, v) :: rest else p :: setField rest k v

/-- `sanitizeSchema`: sanitize the record, default a missing (or falsy) root
`type` to `'object'`, and default a missing (or falsy) `properties` to `{}`
when the root `type` is `'object'`. -/
def sanitizeSchema (schema : List (String × Json)) : List (String × Json) :=
  let sanitized := sanFields schema
  let sanitized :=
    if truthyOpt (lookupField sanitized "type") then sanitized
    else setField sanitized "type" (Json.str "object")
  if lookupField sanitized "type" = some (Json.str "object") ∧
      ¬ truthyOpt (lookupField sanitized "properties") then
    setField sanitized "properties" (Json.obj [])
  else sanitized

/-! ### Sanitizer idempotence -/

theorem dedupFirstAux_nodup_avoid (seen : List Json) (l : List Json) :
    (dedupFirstAux seen l).Nodup ∧
      ∀ x ∈ dedupFirstAux seen l, x ∉ seen := by
  induction l generalizing seen with
  | nil => simp [dedupFirstAux]
  | cons x xs ih =>
    by_cases hx : x ∈ seen
    · simpa [dedupFirstAux, hx] using ih seen
    · have ih' := ih (x :: seen)
      simp only [dedupFirstAux, hx, if_false, if_true]
      constructor
      · refine List.nodup_cons.mpr ⟨?_, ih'.1⟩
        intro hmem
        exact (ih'.2 x hmem) (List.mem_cons_self x seen)
      · intro y hy
        rcases List.mem_cons.mp hy with rfl | hy'
        · exact hx
        · intro hys
          exact (ih'.2 y hy') (List.mem_cons_of_mem x hys)

theorem dedupFirstAux_of_nodup (seen : List Json) (l : List Json)
    (hnd : l.Nodup) (hdisj : ∀ x ∈ l, x ∉ seen) :
    dedupFirstAux seen l = l := by
  induction l generalizing seen with
  | nil => simp [dedupFirstAux]
  | cons x xs ih =>
    have hx : x ∉ seen := hdisj x (List.mem_cons_self x xs)
    obtain ⟨hxxs, hndxs⟩ := List.nodup_cons.mp hnd
    simp only [dedupFirstAux, hx, if_false, if_true]
    rw [ih (x :: seen) hndxs ?_]
    intro y hy
    intro hmem
    rcases List.mem_cons.mp hmem with rfl | hmem'
    · exact hxxs hy
    · exact hdisj y (List.mem_cons_of_mem x hy) hmem'

theorem dedupFirst_idem (l : List Json) :
    dedupFirst (dedupFirst l) = dedupFirst l :=
  dedupFirstAux_of_nodup [] (dedupFirst l)
    (dedupFirstAux_nodup_avoid [] l).1 (by simp)

mutual

theorem sanFields_idem : ∀ fs, sanFields (sanFields fs) = sanFields fs
  | [] => by simp [sanFields]
  | (k, v) :: rest => by
    by_cases h1 : startsWithDollar k = true
    · simp only [sanFields, h1, if_true]
      exact sanFields_idem rest
    · by_cases h2 : allowedSchemaProps.contains k = true
      · simp only [sanFields, h1, if_false, h2, if_true, Bool.false_eq_true]
        rw [sanVal_idem k v, sanFields_idem rest]
      · simp only [sanFields, h1, if_false, h2, Bool.false_eq_true]
        exact sanFields_idem rest

theorem sanVal_idem : ∀ k v, sanVal k (sanVal k v) = sanVal k v
  | k, .null => by simp [sanVal]
  | k, .bool b => by simp [sanVal]
  | k, .num n => by simp [sanVal]
  | k, .str s => by simp [sanVal]
  | k, .obj fs => by
    by_cases hp : k = "properties"
    · subst hp
      simp [sanVal, sanPropFields_idem fs]
    · by_cases hi : k = "items"
      · subst hi
        simp [sanVal, sanFields_idem fs]
      · by_cases ha : k = "additionalProperties"
        · subst ha
          simp [sanVal, sanFields_idem fs]
        · simp [sanVal, hp, hi, ha]
  | k, .arr xs => by
    by_cases hp : k = "properties"
    · subst hp
      simp [sanVal, sanPropArr_stable 0 xs]
    · by_cases hi : k = "items"
      · subst hi
        simp [sanVal, sanFields]
      · by_cases hc : k = "anyOf" ∨ k = "oneOf" ∨ k = "allOf"
        · rcases hc with h | h | h <;> subst h <;>
            simp [sanVal, sanList_idem xs]
        · by_cases ha : k = "additionalProperties"
          · subst ha
            simp [sanVal, sanFields]
          · by_cases hr : k = "required"
            · subst hr
              simp [sanVal, dedupFirst_idem xs]
            · simp [sanVal, hp, hi, hc, ha, hr]

theorem sanPropFields_idem : ∀ fs,
    sanPropFields (sanPropFields fs) = sanPropFields fs
  | [] => by simp [sanPropFields]
  | (n, s) :: rest => by
    simp only [sanPropFields]
    rw [sanFieldSchema_idem s, sanPropFields_idem rest]

theorem sanPropArr_stable : ∀ (i : Nat) (xs : List Json),
    sanPropFields (sanPropArr i xs) = sanPropArr i xs
  | i, [] => by simp [sanPropArr, sanPropFields]
  | i, x :: xs => by
    simp only [sanPropArr, sanPropFields]
    rw [sanFieldSchema_idem x, sanPropArr_stable (i + 1) xs]

theorem sanFieldSchema_idem : ∀ s,
    sanFieldSchema (sanFieldSchema s) = sanFieldSchema s
  | .null => by simp [sanFieldSchema]
  | .bool b => by simp [sanFieldSchema]
  | .num n => by simp [sanFieldSchema]
  | .str s => by simp [sanFieldSchema]
  | .obj fs => by
    simp only [sanFieldSchema]
    rw [sanFields_idem fs]
  | .arr xs => by simp [sanFieldSchema, sanFields]

theorem sanList_idem : ∀ xs, sanList (sanList xs) = sanList xs
  | [] => by simp [sanList]
  | x :: xs => by
    simp only [sanList]
    rw [sanFieldSchema_idem x, sanList_idem xs]

end


theorem sanFields_length_le (fs : List (String × Json)) :
    (sanFields fs).length ≤ fs.length := by
  induction fs with
  | nil => simp [sanFields]
  | cons p rest ih =>
    cases p with
    | mk k v =>
      by_cases h1 : startsWithDollar k = true
      · simp only [sanFields, h1, if_true]
        exact Nat.le_succ_of_le ih
      · by_cases h2 : allowedSchemaProps.contains k = true
        · simp only [sanFields, h1, h2, if_true, Bool.false_eq_true,
            if_false, List.length_cons]
          exact Nat.succ_le_succ ih
        · simp only [sanFields, h1, h2, Bool.false_eq_true, if_false]
          exact Nat.le_succ_of_le ih

theorem sanFields_cons_stable {k : String} {v : Json}
    {rest : List (String × Json)}
    (h : sanFields ((k, v) :: rest) = (k, v) :: rest) :
    startsWithDollar k = false ∧ allowedSchemaProps.contains k = true ∧
      sanVal k v = v ∧ sanFields rest = rest := by
  by_cases h1 : startsWithDollar k = true
  · exfalso
    simp only [sanFields, h1, if_true] at h
    have hle := sanFields_length_le rest
    rw [h] at hle
    simp at hle
  · by_cases h2 : allowedSchemaProps.contains k = true
    · simp only [sanFields, h1, h2, if_true, Bool.false_eq_true, if_false,
        List.cons.injEq, Prod.mk.injEq, true_and] at h
      exact ⟨by simpa using h1, h2, h.1, h.2⟩
    · exfalso
      simp only [sanFields, h1, h2, Bool.false_eq_true, if_false] at h
      have hle := sanFields_length_le rest
      rw [h] at hle
      simp at hle

theorem sanFields_setField {l : List (String × Json)} {k : String} {v : Json}
    (hl : sanFields l = l) (h1 : startsWithDollar k = false)
    (h2 : allowedSchemaProps.contains k = true) (hv : sanVal k v = v) :
    sanFields (setField l k v) = setField l k v := by
  induction l with
  | nil =>
    simp only [setField, sanFields, h1, h2, Bool.false_eq_true, if_false,
      if_true]
    rw [hv]
  | cons p rest ih =>
    cases p with
    | mk k' v' =>
      obtain ⟨hk1, hk2, hkv, hrest⟩ := sanFields_cons_stable hl
      by_cases hk : k' = k
      · simp only [setField, hk, if_true]
        simp only [sanFields, h1, h2, if_true, Bool.false_eq_true, if_false]
        rw [hv, hrest]
      · simp only [setField, hk, if_false, Bool.false_eq_true]
        simp only [sanFields, hk1, hk2, if_true, Bool.false_eq_true, if_false]
        rw [hkv, ih hrest]

theorem lookupField_setField_self (l : List (String × Json)) (k : String)
    (v : Json) : lookupField (setField l k v) k = some v := by
  induction l with
  | nil => simp [setField, lookupField]
  | cons p rest ih =>
    by_cases hp : p.1 = k
    · simp [setField, lookupField, hp]
    · simp [setField, lookupField, hp, ih]

theorem lookupField_setField_ne (l : List (String × Json)) (k k' : String)
    (v : Json) (h : k' ≠ k) :
    lookupField (setField l k v) k' = lookupField l k' := by
  have hk' : ¬ (k = k') := fun hk => h hk.symm
  induction l with
  | nil => simp [setField, lookupField, hk']
  | cons p rest ih =>
    by_cases hp : p.1 = k
    · have hp' : ¬ (p.1 = k') := by rw [hp]; exact hk'
      simp [setField, lookupField, hp, hp', hk']
    · by_cases hq : p.1 = k'
      · simp [setField, lookupField, hp, hq, h]
      · simp [setField, lookupField, hp, hq, ih]

/-- The two defaulting steps at the end of `sanitizeSchema`, factored out
for the idempotence proof (`sanitizeSchema = schemaDefaults ∘ sanFields`
definitionally). -/
def schemaDefaults (sanitized : List (String × Json)) :
    List (String × Json) :=
  let sanitized' :=
    if truthyOpt (lookupField sanitized "type") then sanitized
    else setField sanitized "type" (Json.str "object")
  if lookupField sanitized' "type" = some (Json.str "object") ∧
      ¬ truthyOpt (lookupField sanitized' "properties") then
    setField sanitized' "properties" (Json.obj [])
  else sanitized'

theorem sanitizeSchema_eq (schema : List (String × Json)) :
    sanitizeSchema schema = schemaDefaults (sanFields schema) := rfl

theorem schemaDefaults_fields_stable {s : List (String × Json)}
    (hs : sanFields s = s) :
    sanFields (schemaDefaults s) = schemaDefaults s := by
  have htype_keep : startsWithDollar "type" = false := by decide
  have htype_mem : allowedSchemaProps.contains "type" = true := by decide
  have htype_val : sanVal "type" (Json.str "object") = Json.str "object" := by
    simp [sanVal]
  have hprops_keep : startsWithDollar "properties" = false := by decide
  have hprops_mem : allowedSchemaProps.contains "properties" = true := by
    decide
  have hprops_val : sanVal "properties" (Json.obj []) = Json.obj [] := by
    simp [sanVal, sanPropFields]
  simp only [schemaDefaults]
  by_cases h1 : truthyOpt (lookupField s "type") = true
  · simp only [h1, if_true]
    by_cases h2 : lookupField s "type" = some (Json.str "object") ∧
        ¬ truthyOpt (lookupField s "properties") = true
    · rw [if_pos h2]
      exact sanFields_setField hs hprops_keep hprops_mem hprops_val
    · rw [if_neg h2]
      exact hs
  · simp only [h1, Bool.false_eq_true, if_false]
    have hset := sanFields_setField hs htype_keep htype_mem htype_val
    by_cases h2 :
        lookupField (setField s "type" (Json.str "object")) "type" =
          some (Json.str "object") ∧
        ¬ truthyOpt
            (lookupField (setField s "type" (Json.str "object"))
              "properties") = true
    · rw [if_pos h2]
      exact sanFields_setField hset hprops_keep hprops_mem hprops_val
    · rw [if_neg h2]
      exact hset

theorem schemaDefaults_type_truthy (s : List (String × Json)) :
    truthyOpt (lookupField (schemaDefaults s) "type") = true := by
  simp only [schemaDefaults]
  by_cases h1 : truthyOpt (lookupField s "type") = true
  · simp only [h1, if_true]
    by_cases h2 : lookupField s "type" = some (Json.str "object") ∧
        ¬ truthyOpt (lookupField s "properties") = true
    · rw [if_pos h2,
        lookupField_setField_ne s "properties" "type" _ (by decide)]
      exact h1
    · rw [if_neg h2]
      exact h1
  · simp only [h1, Bool.false_eq_true, if_false]
    have hu : lookupField (setField s "type" (Json.str "object")) "type" =
        some (Json.str "object") :=
      lookupField_setField_self s "type" _
    have hut : truthyOpt
        (lookupField (setField s "type" (Json.str "object")) "type") =
          true := by
      rw [hu]; simp [truthyOpt, truthy]
    by_cases h2 :
        lookupField (setField s "type" (Json.str "object")) "type" =
          some (Json.str "object") ∧
        ¬ truthyOpt
            (lookupField (setField s "type" (Json.str "object"))
              "properties") = true
    · rw [if_pos h2,
        lookupField_setField_ne _ "properties" "type" _ (by decide)]
      exact hut
    · rw [if_neg h2]
      exact hut

theorem schemaDefaults_props_cond_false (s : List (String × Json)) :
    ¬ (lookupField (schemaDefaults s) "type" = some (Json.str "object") ∧
        ¬ truthyOpt (lookupField (schemaDefaults s) "properties") = true) := by
  simp only [schemaDefaults]
  by_cases h1 : truthyOpt (lookupField s "type") = true
  · simp only [h1, if_true]
    by_cases h2 : lookupField s "type" = some (Json.str "object") ∧
        ¬ truthyOpt (lookupField s "properties") = true
    · rw [if_pos h2]
      rintro ⟨-, hcontra⟩
      rw [lookupField_setField_self s "properties" _] at hcontra
      simp [truthyOpt, truthy] at hcontra
    · rw [if_neg h2]
      exact h2
  · simp only [h1, Bool.false_eq_true, if_false]
    by_cases h2 :
        lookupField (setField s "type" (Json.str "object")) "type" =
          some (Json.str "object") ∧
        ¬ truthyOpt
            (lookupField (setField s "type" (Json.str "object"))
              "properties") = true
    · rw [if_pos h2]
      rintro ⟨-, hcontra⟩
      rw [lookupField_setField_self _ "properties" _] at hcontra
      simp [truthyOpt, truthy] at hcontra
    · rw [if_neg h2]
      exact h2

theorem schemaDefaults_of_stable (w : List (String × Json))
    (ht : truthyOpt (lookupField w "type") = true)
    (hc : ¬ (lookupField w "type" = some (Json.str "object") ∧
        ¬ truthyOpt (lookupField w "properties") = true)) :
    schemaDefaults w = w := by
  simp only [schemaDefaults]
  rw [if_pos ht, if_neg hc]

theorem schemaDefaults_idem (s : List (String × Json)) :
    schemaDefaults (schemaDefaults s) = schemaDefaults s :=
  schemaDefaults_of_stable (schemaDefaults s)
    (schemaDefaults_type_truthy s) (schemaDefaults_props_cond_false s)

/-- C7: the schema sanitizer is idempotent — for every input schema record
`s`, `sanitizeSchema (sanitizeSchema s) = sanitizeSchema s`. -/
theorem C7_sanitizeSchema_idem (schema : List (String × Json)) :
    sanitizeSchema (sanitizeSchema schema) = sanitizeSchema schema := by
  rw [sanitizeSchema_eq, sanitizeSchema_eq,
    schemaDefaults_fields_stable (sanFields_idem schema),
    schemaDefaults_idem, ← sanitizeSchema_eq]

/-! ## Chat orchestration (`backend/src/services/openrouter.ts`)

The message/tool-call record types, `cleanMessages`, the request
construction phase of `chat` (model selection and the tool-catalog
decision), the response normalization and tool-execution phase of `chat`,
`executeTool`, and `chatWithToolLoop`. -/

inductive Role where
  | user
  | assistant
  | system
  | tool
deriving DecidableEq, Repr

/-- `ToolCall.function`. -/
structure ToolCallFunction where
  name : String
  arguments : String
deriving DecidableEq, Repr

/-- `ToolCall` (the `type` field is the constant `'function'` on the wire). -/
structure ToolCall where
  id : String
  type : String
  function : ToolCallFunction
deriving DecidableEq, Repr

/-- `ChatMessage`.  `content` distinguishes absent (`none`), `null`
(`some none`) and a string (`some (some s)`); `tool_calls`, `tool_call_id`
and `name` are optional fields. -/
structure ChatMessage where
  role : Role
  content : Option (Option String)
  tool_calls : Option (List ToolCall)
  tool_call_id : Option String
  name : Option String
deriving DecidableEq, Repr

/-- `ToolResult`. -/
structure ToolResultM where
  tool_call_id : String
  name : String
  output : String
deriving DecidableEq, Repr

/-- JS `a || b` for an optional string `a`: the default wins when `a` is
absent *or* the empty string (falsy). -/
def strOr (a : Option String) (b : String) : String :=
  match a with
  | some s => if s = "" then b else s
  | none => b

/-- Truthiness of an optional string (`msg.tool_call_id &&`). -/
def strTruthy (a : Option String) : Bool :=
  match a with
  | some s => s ≠ ""
  | none => false

/-- The per-message body of `cleanMessages`: keep only `role` and `content`;
re-attach `tool_call_id` for tool messages and cleaned `tool_calls` (with
`arguments || '{}'`) for assistant messages that carry a nonempty list. -/
def cleanMessage (msg : ChatMessage) : ChatMessage :=
  let clean : ChatMessage :=
    { role := msg.role, content := msg.content,
      tool_calls := none, tool_call_id := none, name := none }
  let clean :=
    if msg.role = Role.tool ∧ strTruthy msg.tool_call_id then
      { clean with tool_call_id := msg.tool_call_id }
    else clean
  if msg.role = Role.assistant ∧ (msg.tool_calls.getD []).length > 0 then
    { clean with
      tool_calls := some ((msg.tool_calls.getD []).map (fun tc =>
        { id := tc.id, type := tc.type,
          function :=
            { name := tc.function.name,
              arguments :=
                if tc.function.arguments = "" then "{}"
                else tc.function.arguments } })) }
  else clean

def cleanMessages (messages : List ChatMessage) : List ChatMessage :=
  messages.map cleanMessage

/-- `OpenRouterTool.function`. -/
structure OpenRouterFunction where
  name : String
  description : String
  parameters : List (String × Json)
deriving DecidableEq, Repr

/-- `OpenRouterTool`. -/
structure OpenRouterTool where
  type : String
  function : OpenRouterFunction
deriving DecidableEq, Repr

/-- `convertMCPToolsToOpenRouterFormat`: namespace each catalog tool as
`"{connectionId}__{toolName}"`, default an absent (or empty, `||`) description
and sanitize the schema. -/
def convertMCPToolsToOpenRouterFormat (st : MState) : List OpenRouterTool :=
  (getAllTools st).map (fun r =>
    { type := "function"
      function :=
        { name := r.connectionId ++ "__" ++ r.tool.name
          description := strOr r.tool.description ("Tool " ++ r.tool.name)
          parameters := sanitizeSchema r.tool.inputSchema } })

/-- The options record of `chat` (`temperature`/`maxTokens` are JS numbers,
modelled as `Rat`; no arithmetic is performed on them). -/
structure ChatOptions where
  model : Option String
  temperature : Option Rat
  maxTokens : Option Rat
  useTools : Option Bool
deriving DecidableEq, Repr

/-- `ChatCompletionRequest` as sent to the LLM backend (`stream` omitted:
never set by `chat`). -/
structure ChatCompletionRequestM where
  model : String
  messages : List ChatMessage
  tools : Option (List OpenRouterTool)
  tool_choice : Option String
  temperature : Rat
  max_tokens : Rat
deriving DecidableEq, Repr

/-- The request-construction phase of `chat` (openrouter.ts lines 250-270):
clean the messages, include the converted catalog whenever
`options.useTools !== false` (the source comment reads "Always send tools so
model can continue calling them after receiving results"), and attach
`tools`/`tool_choice` only when the catalog is nonempty. -/
def buildChatRequest (st : MState) (messages : List ChatMessage)
    (options : ChatOptions) : ChatCompletionRequestM :=
  let model := strOr options.model "anthropic/claude-sonnet-4"
  let cleanedMessages := cleanMessages messages
  let tools :=
    if options.useTools ≠ some false then convertMCPToolsToOpenRouterFormat st
    else []
  let request : ChatCompletionRequestM :=
    { model := model
      messages := cleanedMessages
      tools := none
      tool_choice := none
      temperature := options.temperature.getD (7 / 10)
      max_tokens := options.maxTokens.getD 4096 }
  if tools.length > 0 then
    { request with tools := some tools, tool_choice := some "auto" }
  else request

/-- A registry state with one connected connection, used by concrete
counterexamples and witnesses. -/
def chatStateW : MState :=
  { connections := [("c1",
      { id := "c1", url := "http://x", name := "srv",
        status := ConnStatus.connected, tools := [toolA] })]
    pending := [], oauthSessions := [], mcpRows := [] }

def userMsg : ChatMessage :=
  { role := Role.user, content := some (some "oi"), tool_calls := none,
    tool_call_id := none, name := none }

def toolMsg : ChatMessage :=
  { role := Role.tool, content := some (some "42"), tool_calls := none,
    tool_call_id := some "call_1", name := none }

def noOptions : ChatOptions :=
  { model := none, temperature := none, maxTokens := none, useTools := none }

/-- C3 (counterexample): with a nonempty catalog, a message list whose last
message has role `tool`, and `useTools` unset (not forcing anything), `chat`
still attaches the tool catalog to the request — the current code always
sends tools when `useTools !== false`, regardless of the trailing message's
role. -/
theorem C3_counterexample :
    ([userMsg, toolMsg].getLast?.map (fun m => m.role) = some Role.tool) ∧
    noOptions.useTools = none ∧
    (buildChatRequest chatStateW [userMsg, toolMsg] noOptions).tools ≠
      none := by
  refine ⟨by decide, by decide, ?_⟩
  decide

/-- C3 (amended): the tool-catalog decision of `chat` ignores the message
list entirely — appending any trailing message (in particular a tool result)
does not change it; the catalog is included iff `useTools` is not `false`
and the converted catalog is nonempty. -/
theorem C3_tools_ignore_trailing_message (st : MState)
    (messages : List ChatMessage) (m : ChatMessage) (options : ChatOptions) :
    ((buildChatRequest st (messages ++ [m]) options).tools =
      (buildChatRequest st messages options).tools) ∧
    (options.useTools = some false →
      (buildChatRequest st messages options).tools = none) ∧
    (options.useTools ≠ some false →
      convertMCPToolsToOpenRouterFormat st ≠ [] →
      (buildChatRequest st messages options).tools =
        some (convertMCPToolsToOpenRouterFormat st)) := by
  refine ⟨?_, ?_, ?_⟩
  · by_cases hu : options.useTools = some false
    · simp [buildChatRequest, hu]
    · by_cases hlen : (convertMCPToolsToOpenRouterFormat st).length > 0
      · simp [buildChatRequest, hu, hlen]
      · simp [buildChatRequest, hu, hlen]
  · intro hu
    simp [buildChatRequest, hu]
  · intro hu hne
    have hlen : (convertMCPToolsToOpenRouterFormat st).length > 0 :=
      List.length_pos.mpr hne
    simp [buildChatRequest, hu, hlen]

theorem C3_witness :
    (buildChatRequest chatStateW [userMsg, toolMsg] noOptions).tools =
      some (convertMCPToolsToOpenRouterFormat chatStateW) :=
  (C3_tools_ignore_trailing_message chatStateW [userMsg, toolMsg] toolMsg
    noOptions).2.2 (by simp [noOptions]) (by decide)

/-- Content normalization in `chat` (lines 315-319): when the reply omits
`content`, set it to `null` if a `tool_calls` field is present (even an
empty array is truthy) and to `''` otherwise. -/
def normalizeAssistantContent (assistantMessage : ChatMessage) :
    ChatMessage :=
  if assistantMessage.content = none then
    { assistantMessage with
      content :=
        some (if assistantMessage.tool_calls.isSome then none
          else some "") }
  else assistantMessage

/-- String-level decomposition used by `executeTool`:
`const [connectionId, ...toolNameParts] = functionName.split('__')` and
`toolNameParts.join('__')`. -/
def decomposeToolNameS (functionName : String) : String × String :=
  let p := decomposeToolName functionName.data
  (String.mk p.1, String.mk p.2)

/-- `mcpManager.callTool`: fail if the connection id is unknown, otherwise
forward to the provider session (`providerResult` is the outcome of
`connection.client.callTool`, an external collaborator) and re-wrap provider
errors with the tool's name. -/
def callTool (providerResult : Except String Json) (st : MState)
    (connectionId toolName : String) (_args : Json) : Except String Json :=
  match mapGet st.connections connectionId with
  | none => Except.error ("MCP connection not found: " ++ connectionId)
  | some _ =>
    match providerResult with
    | Except.ok result => Except.ok result
    | Except.error e =>
      Except.error ("Failed to call tool " ++ toolName ++ ": " ++ e)

/-- `executeTool`: parse the JSON argument string (`jsonParse` models
`JSON.parse`, failing with the thrown message), dispatch through
`callTool`, and convert *any* failure into a `ToolResult` whose `output` is
`JSON.stringify({ error: message })` — never a thrown error.  `stringify`
and `stringifyPretty` model `JSON.stringify(·)` and
`JSON.stringify(·, null, 2)`. -/
def executeTool (jsonParse : String → Except String Json)
    (stringify stringifyPretty : Json → String)
    (providerResult : Except String Json) (st : MState)
    (toolCall : ToolCall) : ToolResultM :=
  let functionName := toolCall.function.name
  let decomposed := decomposeToolNameS functionName
  match jsonParse toolCall.function.arguments with
  | Except.error e =>
    { tool_call_id := toolCall.id, name := functionName,
      output := stringify (Json.obj [("error", Json.str e)]) }
  | Except.ok args =>
    match callTool providerResult st decomposed.1 decomposed.2 args with
    | Except.ok result =>
      { tool_call_id := toolCall.id, name := functionName,
        output := stringifyPretty result }
    | Except.error e =>
      { tool_call_id := toolCall.id, name := functionName,
        output := stringify (Json.obj [("error", Json.str e)]) }

/-- The response-handling phase of `chat` (lines 305-333): reject an empty
`choices` array, normalize the first choice's message content, and — when
the message carries a nonempty `tool_calls` — execute every call in order,
returning the assistant message together with the results.
`executeToolFn` is the (already-environment-applied) tool executor. -/
def chatProcessResponse (executeToolFn : ToolCall → ToolResultM)
    (choices : List ChatMessage) :
    Except String (ChatMessage × Option (List ToolResultM)) :=
  match choices with
  | [] => Except.error "No choices in OpenRouter response"
  | rawMessage :: _ =>
    let assistantMessage := normalizeAssistantContent rawMessage
    match assistantMessage.tool_calls with
    | some calls =>
      if calls.length > 0 then
        Except.ok (assistantMessage, some (calls.map executeToolFn))
      else Except.ok (assistantMessage, none)
    | none => Except.ok (assistantMessage, none)

theorem normalize_tool_calls (m : ChatMessage) :
    (normalizeAssistantContent m).tool_calls = m.tool_calls := by
  by_cases h : m.content = none <;> simp [normalizeAssistantContent, h]

/-- C10: the assistant message returned by `chat` never has an undefined
`content`: an omitted content field is normalized to `null` when the message
carries a `tool_calls` field and to the empty string otherwise, and a
present content is left unchanged. -/
theorem C10_content_never_undefined (f : ToolCall → ToolResultM)
    (choices : List ChatMessage) (m : ChatMessage)
    (tr : Option (List ToolResultM))
    (h : chatProcessResponse f choices = Except.ok (m, tr)) :
    m.content ≠ none ∧
    ∃ raw rest, choices = raw :: rest ∧
      (raw.content = none →
        m.content =
          some (if raw.tool_calls.isSome then none else some "")) ∧
      (raw.content ≠ none → m.content = raw.content) := by
  cases choices with
  | nil => simp [chatProcessResponse] at h
  | cons raw rest =>
    have hm : m = normalizeAssistantContent raw := by
      simp only [chatProcessResponse] at h
      rcases hc : (normalizeAssistantContent raw).tool_calls with _ | calls
      · rw [hc] at h
        simp at h
        exact h.1.symm
      · rw [hc] at h
        by_cases hlen : calls.length > 0
        · simp [hlen] at h
          exact h.1.symm
        · simp [hlen] at h
          exact h.1.symm
    subst hm
    refine ⟨?_, raw, rest, rfl, ?_, ?_⟩
    · by_cases hc : raw.content = none
      · simp [normalizeAssistantContent, hc]
      · simpa [normalizeAssistantContent, hc] using hc
    · intro hc
      simp [normalizeAssistantContent, hc]
    · intro hc
      simp [normalizeAssistantContent, hc]

def rawAssistantNoContent : ChatMessage :=
  { role := Role.assistant, content := none, tool_calls := none,
    tool_call_id := none, name := none }

def dummyExec : ToolCall → ToolResultM := fun tc =>
  { tool_call_id := tc.id, name := tc.function.name, output := "{}" }

theorem C10_witness :
    (normalizeAssistantContent rawAssistantNoContent).content ≠ none :=
  (C10_content_never_undefined dummyExec [rawAssistantNoContent]
    (normalizeAssistantContent rawAssistantNoContent) none rfl).1

/-- C8: a tool-call execution failure never aborts the chat turn.  Whatever
fails — the argument string fails to parse, the connection id does not
resolve, or the provider call errors — `executeTool` returns a `ToolResult`
keyed by the originating call id whose `output` is the stringified
`{ error: message }` payload, and `chat` still returns the assistant message
together with one result per call, in order. -/
theorem C8_tool_failure_contained
    (jsonParse : String → Except String Json)
    (stringify stringifyPretty : Json → String)
    (providerResult : Except String Json) (st : MState) (toolCall : ToolCall)
    (f : ToolCall → ToolResultM) (raw : ChatMessage)
    (rest : List ChatMessage) (calls : List ToolCall) :
    ((executeTool jsonParse stringify stringifyPretty providerResult st
        toolCall).tool_call_id = toolCall.id) ∧
    (∀ e, jsonParse toolCall.function.arguments = Except.error e →
      (executeTool jsonParse stringify stringifyPretty providerResult st
          toolCall).output =
        stringify (Json.obj [("error", Json.str e)])) ∧
    (∀ args, jsonParse toolCall.function.arguments = Except.ok args →
      mapGet st.connections
          (decomposeToolNameS toolCall.function.name).1 = none →
      (executeTool jsonParse stringify stringifyPretty providerResult st
          toolCall).output =
        stringify (Json.obj [("error",
          Json.str ("MCP connection not found: " ++
            (decomposeToolNameS toolCall.function.name).1))])) ∧
    (∀ args c e, jsonParse toolCall.function.arguments = Except.ok args →
      mapGet st.connections
          (decomposeToolNameS toolCall.function.name).1 = some c →
      providerResult = Except.error e →
      (executeTool jsonParse stringify stringifyPretty providerResult st
          toolCall).output =
        stringify (Json.obj [("error",
          Json.str ("Failed to call tool " ++
            (decomposeToolNameS toolCall.function.name).2 ++ ": " ++
            e))])) ∧
    (raw.tool_calls = some calls → calls ≠ [] →
      chatProcessResponse f (raw :: rest) =
        Except.ok (normalizeAssistantContent raw, some (calls.map f))) := by
  refine ⟨?_, ?_, ?_, ?_, ?_⟩
  · simp only [executeTool]
    rcases hp : jsonParse toolCall.function.arguments with e | args
    · simp [hp]
    · simp only [hp]
      rcases hc : callTool providerResult st
          (decomposeToolNameS toolCall.function.name).1
          (decomposeToolNameS toolCall.function.name).2 args with e | r
      · simp [hc]
      · simp [hc]
  · intro e hp
    simp [executeTool, hp]
  · intro args hp hconn
    simp only [executeTool, hp]
    have hc : callTool providerResult st
        (decomposeToolNameS toolCall.function.name).1
        (decomposeToolNameS toolCall.function.name).2 args =
        Except.error ("MCP connection not found: " ++
          (decomposeToolNameS toolCall.function.name).1) := by
      simp [callTool, hconn]
    simp [hc]
  · intro args c e hp hconn hprov
    simp only [executeTool, hp]
    have hc : callTool providerResult st
        (decomposeToolNameS toolCall.function.name).1
        (decomposeToolNameS toolCall.function.name).2 args =
        Except.error ("Failed to call tool " ++
          (decomposeToolNameS toolCall.function.name).2 ++ ": " ++ e) := by
      simp [callTool, hconn, hprov]
    simp [hc]
  · intro hcalls hne
    simp only [chatProcessResponse, normalize_tool_calls, hcalls]
    simp [List.length_pos.mpr hne]

def badToolCall : ToolCall :=
  { id := "call_9", type := "function",
    function := { name := "c1__add", arguments := "not json" } }

def failParse : String → Except String Json := fun _ =>
  Except.error "Unexpected token"

def constStringify : Json → String := fun _ => "ERRPAYLOAD"

theorem C8_witness :
    (executeTool failParse constStringify constStringify
        (Except.ok Json.null) chatStateW badToolCall).output =
      constStringify (Json.obj [("error", Json.str "Unexpected token")]) :=
  (C8_tool_failure_contained failParse constStringify constStringify
    (Except.ok Json.null) chatStateW badToolCall dummyExec userMsg []
    []).2.1 "Unexpected token" rfl

/-- The fixed system instruction `chatWithToolLoop` prepends when the
incoming history has no system message. -/
def systemPrompt : ChatMessage :=
  { role := Role.system
    content := some (some ("Você é um assistente útil com acesso a ferramentas MCP (Model Context Protocol). \n\nREGRAS IMPORTANTES:\n1. Quando o usuário pedir para fazer algo, COMPLETE A TAREFA até o fim\n2. Se você disse que vai fazer algo, FAÇA - não pare no meio\n3. Use as ferramentas disponíveis para completar tarefas\n4. Se uma ferramenta falhar, tente outra abordagem\n5. Sempre responda em português brasileiro\n6. Seja conciso e direto\n\nQuando precisar criar, modificar ou buscar informações, use as ferramentas disponíveis."))
    tool_calls := none, tool_call_id := none, name := none }

/-- A tool result appended to the conversation as a tool-role message. -/
def toolResultMessage (result : ToolResultM) : ChatMessage :=
  { role := Role.tool, content := some (some result.output),
    tool_calls := none, tool_call_id := some result.tool_call_id,
    name := none }

/-- The outcome of `chatWithToolLoop`.  In the source, exceeding the bound
executes `throw new Error(errMsg)`: only the message string escapes to the
caller, and the local `conversationMessages` is discarded.  The
`maxIterationsError` constructor additionally records that local's final
value so theorems can speak about the transcript at the throw point. -/
inductive ChatLoopResult where
  | ok (messages : List ChatMessage) (finalMessage : ChatMessage)
  | maxIterationsError (errMsg : String)
      (conversationMessages : List ChatMessage)
deriving DecidableEq, Repr

/-- The `while (iteration < maxIterations)` loop of `chatWithToolLoop`,
counted by remaining iterations.  `chatFn` is `this.chat` applied to the
current conversation: it yields the assistant message and the tool results
`chat` already executed (an external collaborator plus `executeTool`). -/
def chatLoopGo
    (chatFn : List ChatMessage → ChatMessage × Option (List ToolResultM))
    (maxIterations : Nat) (remainingIterations : Nat)
    (conversationMessages : List ChatMessage) : ChatLoopResult :=
  match remainingIterations with
  | 0 =>
    ChatLoopResult.maxIterationsError
      ("Max iterations (" ++ toString maxIterations ++
        ") reached without completing")
      conversationMessages
  | remaining + 1 =>
    let step := chatFn conversationMessages
    let message := step.1
    let conv := conversationMessages ++ [message]
    if message.tool_calls.getD [] = [] then
      ChatLoopResult.ok conv message
    else
      let conv :=
        match step.2 with
        | some toolResults => conv ++ toolResults.map toolResultMessage
        | none => conv
      chatLoopGo chatFn maxIterations remaining conv

/-- The initial conversation: prepend `systemPrompt` unless a system message
is already present. -/
def initialConversation (messages : List ChatMessage) : List ChatMessage :=
  if messages.any (fun m => m.role = Role.system) then messages
  else systemPrompt :: messages

/-- `chatWithToolLoop` (lines 357-406): default the bound to 10, seed the
conversation, and run the loop. -/
def chatWithToolLoop
    (chatFn : List ChatMessage → ChatMessage × Option (List ToolResultM))
    (messages : List ChatMessage) (maxIterationsOpt : Option Nat) :
    ChatLoopResult :=
  let maxIterations := maxIterationsOpt.getD 10
  chatLoopGo chatFn maxIterations maxIterations
    (initialConversation messages)

/-- The conversation accumulated by `n` loop iterations that all append
their assistant message and tool results (no bound check, no early exit). -/
def loopTrace
    (chatFn : List ChatMessage → ChatMessage × Option (List ToolResultM))
    (remainingIterations : Nat) (conversation : List ChatMessage) :
    List ChatMessage :=
  match remainingIterations with
  | 0 => conversation
  | remaining + 1 =>
    let step := chatFn conversation
    let conv := conversation ++ [step.1]
    let conv :=
      match step.2 with
      | some toolResults => conv ++ toolResults.map toolResultMessage
      | none => conv
    loopTrace chatFn remaining conv

theorem loopTrace_succ
    (chatFn : List ChatMessage → ChatMessage × Option (List ToolResultM))
    (n : Nat) (conv : List ChatMessage) (rs : List ToolResultM)
    (h : (chatFn conv).2 = some rs) :
    loopTrace chatFn (n + 1) conv =
      loopTrace chatFn n
        (conv ++ [(chatFn conv).1] ++ rs.map toolResultMessage) := by
  simp only [loopTrace, h]

/-- Against a model that emits a tool call in every reply, the loop always
exhausts its bound, and the conversation at the throw point is the full
`loopTrace`. -/
theorem chatLoopGo_always_tools
    (chatFn : List ChatMessage → ChatMessage × Option (List ToolResultM))
    (maxIterations : Nat)
    (h : ∀ conv, ((chatFn conv).1.tool_calls).getD [] ≠ []) :
    ∀ (n : Nat) (conv : List ChatMessage),
      chatLoopGo chatFn maxIterations n conv =
        ChatLoopResult.maxIterationsError
          ("Max iterations (" ++ toString maxIterations ++
            ") reached without completing")
          (loopTrace chatFn n conv)
  | 0, conv => by simp [chatLoopGo, loopTrace]
  | n + 1, conv => by
    have hne := h conv
    simp only [chatLoopGo, loopTrace]
    rw [if_neg hne]
    exact chatLoopGo_always_tools chatFn maxIterations h n _

def loopErrMsg : ChatLoopResult → Option String
  | ChatLoopResult.maxIterationsError e _ => some e
  | ChatLoopResult.ok _ _ => none

def loopConvAtThrow : ChatLoopResult → Option (List ChatMessage)
  | ChatLoopResult.maxIterationsError _ c => some c
  | ChatLoopResult.ok _ _ => none

def loopToolCall : ToolCall :=
  { id := "call_loop", type := "function",
    function := { name := "c1__add", arguments := "{}" } }

def loopResult7 : ToolResultM :=
  { tool_call_id := "call_loop", name := "c1__add", output := "7" }

def loopAssistantMsg : ChatMessage :=
  { role := Role.assistant, content := some none,
    tool_calls := some [loopToolCall], tool_call_id := none, name := none }

/-- A model reply that always carries one tool call, with its executed
result — the scenario of claim C4. -/
def alwaysToolChat :
    List ChatMessage → ChatMessage × Option (List ToolResultM) := fun _ =>
  (loopAssistantMsg, some [loopResult7])

/-- C4 (counterexample): with `maxIterations = 3` and a model that always
emits one tool call, the loop fails with the bound-exceeded error, but the
conversation at the throw point carries the tool-result messages of *all
three* iterations (3 tool-role messages), not only of the first two — the
loop appends the third iteration's results before re-testing the bound. -/
theorem C4_counterexample :
    loopErrMsg (chatWithToolLoop alwaysToolChat [userMsg] (some 3)) =
      some "Max iterations (3) reached without completing" ∧
    (((loopConvAtThrow
          (chatWithToolLoop alwaysToolChat [userMsg] (some 3))).getD
        []).filter (fun m => m.role = Role.tool)).length = 3 ∧
    (((loopConvAtThrow
          (chatWithToolLoop alwaysToolChat [userMsg] (some 3))).getD
        []).filter (fun m => m.role = Role.assistant)).length = 3 := by
  refine ⟨by decide, by decide, by decide⟩

/-- C4 (amended): for every model that emits at least one tool call in every
reply (with its executed results), `chatWithToolLoop` with
`maxIterations = 3` fails with the bound-exceeded error naming the bound
after exactly 3 iterations, and the conversation accumulated at the throw
point consists of the seeded history followed by, for *each* of the three
iterations, that iteration's assistant message and its (nonempty)
tool-result messages — including the third.  Only the error message escapes
to the caller (`throw new Error(...)` discards the transcript). -/
theorem C4_loop_bound
    (chatFn : List ChatMessage → ChatMessage × Option (List ToolResultM))
    (messages : List ChatMessage)
    (h1 : ∀ conv, ((chatFn conv).1.tool_calls).getD [] ≠ [])
    (h2 : ∀ conv, ∃ rs, (chatFn conv).2 = some rs ∧ rs ≠ []) :
    ∃ a1 rs1 a2 rs2 a3 rs3,
      chatWithToolLoop chatFn messages (some 3) =
        ChatLoopResult.maxIterationsError
          "Max iterations (3) reached without completing"
          (initialConversation messages ++ [a1] ++
            List.map toolResultMessage rs1 ++ [a2] ++
            List.map toolResultMessage rs2 ++ [a3] ++
            List.map toolResultMessage rs3) ∧
      rs1 ≠ [] ∧ rs2 ≠ [] ∧ rs3 ≠ [] := by
  obtain ⟨rs1, hrs1, hne1⟩ := h2 (initialConversation messages)
  obtain ⟨rs2, hrs2, hne2⟩ :=
    h2 (initialConversation messages ++
      [(chatFn (initialConversation messages)).1] ++
      List.map toolResultMessage rs1)
  obtain ⟨rs3, hrs3, hne3⟩ :=
    h2 (initialConversation messages ++
      [(chatFn (initialConversation messages)).1] ++
      List.map toolResultMessage rs1 ++
      [(chatFn (initialConversation messages ++
        [(chatFn (initialConversation messages)).1] ++
        List.map toolResultMessage rs1)).1] ++
      List.map toolResultMessage rs2)
  refine ⟨(chatFn (initialConversation messages)).1, rs1,
    (chatFn (initialConversation messages ++
      [(chatFn (initialConversation messages)).1] ++
      List.map toolResultMessage rs1)).1, rs2,
    (chatFn (initialConversation messages ++
      [(chatFn (initialConversation messages)).1] ++
      List.map toolResultMessage rs1 ++
      [(chatFn (initialConversation messages ++
        [(chatFn (initialConversation messages)).1] ++
        List.map toolResultMessage rs1)).1] ++
      List.map toolResultMessage rs2)).1, rs3,
    ?_, hne1, hne2, hne3⟩
  have hstr : ("Max iterations (" ++ toString (3 : Nat) ++
      ") reached without completing") =
      "Max iterations (3) reached without completing" := by decide
  simp only [chatWithToolLoop, Option.getD_some]
  rw [chatLoopGo_always_tools chatFn 3 h1 3 (initialConversation messages),
    loopTrace_succ chatFn 2 _ rs1 hrs1,
    loopTrace_succ chatFn 1 _ rs2 hrs2,
    loopTrace_succ chatFn 0 _ rs3 hrs3, hstr]
  simp [loopTrace]

theorem C4_loop_bound_witness :
    ∃ a1 rs1 a2 rs2 a3 rs3,
      chatWithToolLoop alwaysToolChat [userMsg] (some 3) =
        ChatLoopResult.maxIterationsError
          "Max iterations (3) reached without completing"
          (initialConversation [userMsg] ++ [a1] ++
            List.map toolResultMessage rs1 ++ [a2] ++
            List.map toolResultMessage rs2 ++ [a3] ++
            List.map toolResultMessage rs3) ∧
      rs1 ≠ [] ∧ rs2 ≠ [] ∧ rs3 ≠ [] :=
  C4_loop_bound alwaysToolChat [userMsg]
    (fun _ => by simp [alwaysToolChat, loopAssistantMsg])
    (fun _ => ⟨[loopResult7], rfl, by simp⟩)
